import Mathlib

/-!
Shallow embedding of the gastos-telegram-bot expense tracker (src/app.py).

The embedding models the two pieces of actual logic in the source:
 - `parse_expense` (src/app.py lines 46-85): free-text expense parsing, and
 - the `/webhook` handler (src/app.py lines 96-158) together with its
   collaborators `add_row` (lines 160-165), `send_message` (lines 167-171)
   and `transcribe_ogg_to_text` (lines 87-90).

Python strings are modelled as `List Char` (Python indexes and slices
strings by character, as Lean lists do).  The `\d` class of Python's `re`
and the methods `str.lower` / `str.strip` are unicode-aware; they are
modelled here at the ASCII level (`Char.isDigit`, `Char.toLower`, and an
explicit whitespace predicate matching Python's ASCII whitespace), which
is faithful for every ASCII input.  Python floats are modelled as exact
rationals (ℚ); the only strings ever handed to `float()` by this program
are decimal-digit strings with at most one dot, on which `float` is exact
for the purposes of the program's 2-decimal formatting.
-/

namespace GastosBot

/-- ASCII whitespace as recognised by Python's `str.strip`, `str.split`
and the regex class `\s`. -/
def isPyWs (c : Char) : Bool :=
  c == ' ' || c == '\t' || c == '\n' || c == '\r' || c == '\x0b' || c == '\x0c'

/-- Python `str.strip()`: drop whitespace from both ends. -/
def pyStrip (l : List Char) : List Char :=
  ((l.dropWhile isPyWs).reverse.dropWhile isPyWs).reverse

/-- Fuelled worker for `removeAll`.  One unit of fuel is spent per scan
step; since every step consumes at least one character of the list, fuel
equal to the list length (as supplied by `removeAll`) is always enough
for a non-empty pattern, so the `0, l => l` fallback is never reached
there (`removeAllF_fuel` below proves the fuel irrelevance). -/
def removeAllF (pat : List Char) : Nat → List Char → List Char
  | _, [] => []
  | 0, l => l
  | Nat.succ n, c :: cs =>
    if pat.isPrefixOf (c :: cs) then removeAllF pat n (List.drop pat.length (c :: cs))
    else c :: removeAllF pat n cs

/-- Python `s.replace(pat, "")` for a non-empty `pat`: scan left to
right, deleting each non-overlapping occurrence of `pat` and resuming
the scan right after the deleted occurrence. -/
def removeAll (pat : List Char) (l : List Char) : List Char :=
  removeAllF pat l.length l

/-- The literal currency marker `"r$"` stripped at line 55. -/
def rsPat : List Char := ['r', '$']

/-- The literal word `"reais"` stripped at line 55. -/
def reaisPat : List Char := ['r', 'e', 'a', 'i', 's']

/-- Lines 54-55 of src/app.py:
`t = text.lower().strip()` then `t = t.replace("r$", "").replace("reais", "").strip()`. -/
def normalizeInput (l : List Char) : List Char :=
  pyStrip (removeAll reaisPat (removeAll rsPat (pyStrip (l.map Char.toLower))))

/-- The match of the regex `(\d+(?:[.,]\d{1,2})?)` (line 58) at a
position where a digit stands: `\d+` greedily takes the maximal digit
run; the optional group then takes a `.` or `,` separator followed by
two digits if two follow, else one digit, else nothing.  Nothing follows
the optional group in the pattern, so no backtracking into `\d+` occurs. -/
def matchNumAt (l : List Char) : List Char :=
  let ds := l.takeWhile Char.isDigit
  match l.dropWhile Char.isDigit with
  | [] => ds
  | sep :: rest =>
    if sep == '.' || sep == ',' then
      match rest with
      | [] => ds
      | [d1] => if d1.isDigit then ds ++ [sep, d1] else ds
      | d1 :: d2 :: _ =>
        if d1.isDigit then
          if d2.isDigit then ds ++ [sep, d1, d2] else ds ++ [sep, d1]
        else ds
    else ds

/-- `re.search` for the pattern of line 58: scan left to right for the
first position where a match can start (the pattern starts with `\d`,
so exactly the first digit), and return the match's start index and the
matched substring. -/
def findNumberGo : Nat → List Char → Option (Nat × List Char)
  | _, [] => none
  | pos, c :: cs =>
    if c.isDigit then some (pos, matchNumAt (c :: cs)) else findNumberGo (pos + 1) cs

/-- Line 62: `m.group(1).replace(".", "").replace(",", ".")` —
delete every dot, then turn every comma into a dot. -/
def cleanNumber (g : List Char) : List Char :=
  (g.filter (fun c => !(c == '.'))).map (fun c => if c == ',' then '.' else c)

/-- Decimal value of a digit string. -/
def digitsVal (l : List Char) : Nat :=
  l.foldl (fun acc c => acc * 10 + (c.toNat - 48)) 0

/-- Python `float(s)` (lines 63-66), modelled on the strings this
program can produce at that point: a non-empty run of digits with at
most one embedded dot.  Any other shape is rejected (`None` via the
`except` branch).  The value of `"ip.fp"` is `ip + fp / 10 ^ |fp|`,
written as the single fraction `(ip * 10 ^ |fp| + fp) / 10 ^ |fp|`. -/
def floatOfClean (l : List Char) : Option ℚ :=
  let ip := l.takeWhile (fun c => !(c == '.'))
  match l.dropWhile (fun c => !(c == '.')) with
  | [] => if !ip.isEmpty && ip.all Char.isDigit then some (mkRat (digitsVal ip) 1) else none
  | _ :: fp =>
    if (!ip.isEmpty || !fp.isEmpty) && ip.all Char.isDigit && fp.all Char.isDigit
        && fp.all (fun c => !(c == '.')) then
      some (mkRat (digitsVal ip * 10 ^ fp.length + digitsVal fp) (10 ^ fp.length))
    else none

/-- Lines 62-66: the numeric value read off a matched substring. -/
def numberValue (g : List Char) : Option ℚ :=
  floatOfClean (cleanNumber g)

/-- Worker for `collapseWs`; the flag records whether the previous
character belonged to a whitespace run already replaced by `' '`. -/
def collapseWsGo : Bool → List Char → List Char
  | _, [] => []
  | prevWs, c :: cs =>
    if isPyWs c then
      if prevWs then collapseWsGo true cs else ' ' :: collapseWsGo true cs
    else c :: collapseWsGo false cs

/-- `re.sub(r"\s+", " ", l)` (line 71): replace every maximal
whitespace run by a single space. -/
def collapseWs (l : List Char) : List Char :=
  collapseWsGo false l

/-- Worker for `splitWs`; `acc` holds the current token reversed. -/
def splitWsGo : List Char → List Char → List (List Char)
  | acc, [] => if acc.isEmpty then [] else [acc.reverse]
  | acc, c :: cs =>
    if isPyWs c then
      if acc.isEmpty then splitWsGo [] cs else acc.reverse :: splitWsGo [] cs
    else splitWsGo (c :: acc) cs

/-- Python `str.split()` with no argument (line 74): split on
whitespace runs, discarding empty tokens. -/
def splitWs (l : List Char) : List (List Char) :=
  splitWsGo [] l

/-- Lines 69-71: `rest = (t[:m.start()] + t[m.end():]).strip()` then
`rest = re.sub(r"\s+", " ", rest).strip()`. -/
def restOf (t : List Char) (start len : Nat) : List Char :=
  pyStrip (collapseWs (pyStrip (t.take start ++ t.drop (start + len))))

/-- Line 74: the whitespace tokens of the text left after deleting the
matched number. -/
def partsOf (t : List Char) (start : Nat) (g : List Char) : List (List Char) :=
  splitWs (restOf t start g.length)

/-- Line 77: `" ".join(parts[:-1])`. -/
def joinedDesc (parts : List (List Char)) : String :=
  String.intercalate " " (parts.dropLast.map String.mk)

/-- Line 76: `parts[-1]` (used only when `parts` has ≥ 2 elements). -/
def lastAccount (parts : List (List Char)) : String :=
  String.mk (parts.getLastD [])

/-- Lines 58-85 of `parse_expense`: everything after normalization. -/
def parseCore (t : List Char) : Option (ℚ × String × String) :=
  match findNumberGo 0 t with
  | none => none
  | some (start, g) =>
    match numberValue g with
    | none => none
    | some value =>
      let parts := partsOf t start g
      if 2 ≤ parts.length then some (value, joinedDesc parts, lastAccount parts)
      else if parts.length = 1 then some (value, String.mk (parts.headD []), "")
      else some (value, "", "")

/-- `parse_expense` (src/app.py lines 46-85).  Returns
`(valor, descricao, conta)` on success and `none` on failure (the
source returns `None` both when the regex finds no match and when
`float` raises). -/
def parse_expense (text : String) : Option (ℚ × String × String) :=
  parseCore (normalizeInput text.toList)

/-! ## The webhook handler and its collaborators (src/app.py lines 87-171)

The handler's outward effects are modelled by collecting the
`send_message` calls and the `ws.append_row` calls it performs, together
with the JSON acknowledgment it returns (`ack = true` stands for
`jsonify({"ok": True})`).  The external world is an explicit `Env`:
the current UTC time (`datetime.now(timezone.utc)`, line 163), the
Telegram `getFile` response for a file id (lines 128-129), and the raw
text produced by the Whisper model for this request's audio (line 89).
The audio download (lines 137-141) either succeeds or raises an
unhandled exception (`raise_for_status`); only the non-raising paths
are in scope here, as are they in the source's own control flow. -/

/-- A UTC timestamp, as produced by `datetime.now(timezone.utc)`. -/
structure DateTime where
  year : Nat
  month : Nat
  day : Nat
  hour : Nat
  minute : Nat
  second : Nat
deriving DecidableEq, Repr

/-- Zero-pad to two digits (strftime `%m`/`%d`/`%H`/`%M`/`%S`). -/
def pad2 (n : Nat) : String :=
  if n < 10 then "0" ++ Nat.repr n else Nat.repr n

/-- Zero-pad to four digits (strftime `%Y`). -/
def pad4 (n : Nat) : String :=
  if n < 10 then "000" ++ Nat.repr n
  else if n < 100 then "00" ++ Nat.repr n
  else if n < 1000 then "0" ++ Nat.repr n
  else Nat.repr n

/-- Line 164: `now.strftime("%Y-%m-%d %H:%M:%S UTC")`. -/
def fmtTimestamp (d : DateTime) : String :=
  pad4 d.year ++ "-" ++ pad2 d.month ++ "-" ++ pad2 d.day ++ " " ++
    pad2 d.hour ++ ":" ++ pad2 d.minute ++ ":" ++ pad2 d.second ++ " UTC"

/-- Python `f"{value:.2f}"` (lines 124, 157, 165), modelled for the
non-negative values that are exact multiples of 1/100 — the only values
`parse_expense` produces (its fractional parts have 1 or 2 digits).
For such `q`, the number of hundredths `q * 100` is the non-negative
integer `q.num * (100 / q.den)` (the reduced denominator divides 100),
and `%.2f` prints it split into units and hundredths. -/
def format2 (q : ℚ) : String :=
  let n := (q.num * (100 / (q.den : Int))).toNat
  Nat.repr (n / 100) ++ "." ++ pad2 (n % 100)

/-- `add_row` (lines 160-165): the single row appended to the
worksheet for one transaction. -/
def add_row (now : DateTime) (value : ℚ) (desc conta original : String) : List String :=
  [fmtTimestamp now, format2 value, desc, conta, original]

/-- One `send_message` call (lines 167-171).  The payload carries
`reply_to_message_id` only when `reply_to` is truthy (`if reply_to:`),
so a `None` or `0` id is dropped. -/
structure SendCall where
  chat_id : Option Int
  text : String
  reply_to : Option Nat
deriving DecidableEq, Repr

/-- Lines 167-171: build the payload of one `sendMessage` call. -/
def send_message (chat_id : Option Int) (text : String) (reply_to : Option Nat) : SendCall :=
  { chat_id := chat_id
    text := text
    reply_to := match reply_to with
      | some n => if n = 0 then none else some n
      | none => none }

/-- Replace every `.` by `,` — the `.replace(".", ",")` applied to the
whole success reply f-string at lines 124 and 157. -/
def dotToComma (s : String) : String :=
  String.mk (s.toList.map (fun c => if c == '.' then ',' else c))

/-- The success reply of the text branch (line 124), with its trailing
`.replace(".", ",")` applied to the entire formatted string. -/
def successReply (value : ℚ) (desc conta : String) : String :=
  dotToComma ("Lançado ✅ R$ " ++ format2 value ++ " | " ++ desc ++ " | " ++ conta)

/-- The success reply of the voice branch (line 157); the transcription
is inside the f-string, so its dots are also turned into commas. -/
def voiceSuccessReply (transcript : String) (value : ℚ) (desc conta : String) : String :=
  dotToComma ("Transcrição: `" ++ transcript ++ "`\nLançado ✅ R$ " ++ format2 value ++
    " | " ++ desc ++ " | " ++ conta)

/-- The failure reply of the voice branch (line 152); no replace is
applied, the transcript appears verbatim. -/
def voiceFailReply (transcript : String) : String :=
  "Transcrição: `" ++ transcript ++ "`\nNão entendi o formato. Exemplo: `500 padaria nubank`"

/-- The failure reply of the text branch (line 120). -/
def textFailReply : String :=
  "Não entendi. Exemplo: `500 padaria nubank`"

/-- A `voice` or `audio` attachment object; Telegram's JSON may in
principle omit `file_id` (`message["voice"].get("file_id")`, line 110). -/
structure Attachment where
  file_id : Option String
deriving DecidableEq, Repr

/-- An inbound Telegram message as probed by the handler: the fields
`voice`, `audio`, `text`, `chat.id` and `message_id` (lines 104-116). -/
structure Message where
  voice : Option Attachment
  audio : Option Attachment
  text : Option String
  chat_id : Option Int
  message_id : Option Nat
deriving DecidableEq, Repr

/-- An inbound update: `update.get("message") or update.get("edited_message")`
(line 100). -/
structure Update where
  message : Option Message
  edited_message : Option Message
deriving DecidableEq, Repr

/-- Lines 108-112: `file_id` resolution.  `if "voice" in message` is
tested first; when a `voice` object is present the `elif "audio"` arm
is skipped even if the voice object carries no `file_id`. -/
def getFileId (m : Message) : Option String :=
  match m.voice with
  | some v => v.file_id
  | none =>
    match m.audio with
    | some a => a.file_id
    | none => none

/-- Response of the Telegram `getFile` API call (lines 128-133). -/
structure FileInfo where
  ok : Bool
  file_path : String
deriving DecidableEq, Repr

/-- The external collaborators of one request: the UTC clock, the
Telegram `getFile` API, and the Whisper model's raw output for this
request's audio. -/
structure Env where
  now : DateTime
  getFile : String → FileInfo
  modelText : String

/-- `transcribe_ogg_to_text` (lines 87-90): the model's text (already
`or ""`-defaulted) is stripped. -/
def transcribe_ogg_to_text (raw : String) : String :=
  String.mk (pyStrip raw.toList)

/-- The outward-visible outcome of one webhook request: the
`sendMessage` calls made, the rows appended, and the JSON body
returned (`ack = true` is `{"ok": true}`). -/
structure WebhookResult where
  sends : List SendCall
  appends : List (List String)
  ack : Bool
deriving DecidableEq, Repr

/-- Lines 114-125: the text branch of the webhook (reached when no
file id was resolved). -/
def textBranch (env : Env) (chat_id : Option Int) (msg_id : Option Nat)
    (mtext : Option String) : WebhookResult :=
  let text := String.mk (pyStrip (mtext.getD "").toList)
  if text = "" then { sends := [], appends := [], ack := true }
  else
    match parse_expense text with
    | none =>
      { sends := [send_message chat_id textFailReply msg_id], appends := [], ack := true }
    | some (value, desc, conta) =>
      { sends := [send_message chat_id (successReply value desc conta) msg_id]
        appends := [add_row env.now value desc conta text]
        ack := true }

/-- Lines 127-158: the voice/audio branch of the webhook. -/
def audioBranch (env : Env) (chat_id : Option Int) (msg_id : Option Nat)
    (fid : String) : WebhookResult :=
  if (env.getFile fid).ok = false then
    { sends := [send_message chat_id "Não consegui pegar o áudio 😕" msg_id]
      appends := [], ack := true }
  else
    let text := transcribe_ogg_to_text env.modelText
    if text = "" then
      { sends := [send_message chat_id
          "Transcrevi vazio 😅 Tenta falar um pouco mais alto e sem muito ruído." msg_id]
        appends := [], ack := true }
    else
      match parse_expense text with
      | none =>
        { sends := [send_message chat_id (voiceFailReply text) msg_id]
          appends := [], ack := true }
      | some (value, desc, conta) =>
        { sends := [send_message chat_id (voiceSuccessReply text value desc conta) msg_id]
          appends := [add_row env.now value desc conta text]
          ack := true }

/-- Lines 104-158: handling of one present message.  Line 114 is
`if not file_id:` — a Python truthiness test, so both a missing
file id and a resolved but empty-string file id take the text branch;
only a non-empty file id reaches the voice/audio pipeline. -/
def handleMessage (env : Env) (m : Message) : WebhookResult :=
  match getFileId m with
  | none => textBranch env m.chat_id m.message_id m.text
  | some fid =>
    if fid = "" then textBranch env m.chat_id m.message_id m.text
    else audioBranch env m.chat_id m.message_id fid

/-- The `/webhook` handler (lines 96-158).  A present `message` field
wins over `edited_message` (the Python `or` of line 100; a message
object present in the JSON is a non-empty dict, hence truthy). -/
def webhook (env : Env) (u : Update) : WebhookResult :=
  match u.message with
  | some m => handleMessage env m
  | none =>
    match u.edited_message with
    | some m => handleMessage env m
    | none => { sends := [], appends := [], ack := true }

/-- Bool-valued substring test: does `pat` occur inside `s`? -/
def containsSub (s pat : List Char) : Bool :=
  match s with
  | [] => pat.isEmpty
  | _ :: tail => pat.isPrefixOf s || containsSub tail pat

/-- Substring test on strings. -/
def containsSubS (s pat : String) : Bool :=
  containsSub s.toList pat.toList

/-- The normalization of `parse_expense` as the specification words it:
lower-case the input, strip the literal markers `"r$"` and `"reais"`,
trim whitespace.  (The source additionally trims before the marker
removal; `normalizeInput_eq_spec` below shows this makes no difference.) -/
def normalizeSpec (l : List Char) : List Char :=
  pyStrip (removeAll reaisPat (removeAll rsPat (l.map Char.toLower)))

/-- A concrete environment used by the counterexample witnesses. -/
def env0 : Env :=
  { now := ⟨2026, 10, 12, 0, 0, 0⟩
    getFile := fun _ => { ok := true, file_path := "voice/file_0.oga" }
    modelText := "" }

/-- The message used by the C3 counterexample: a plain text message
whose text contains no digit. -/
def m3 : Message :=
  { voice := none, audio := none, text := some "xyz", chat_id := some 7, message_id := some 3 }

/-- The message used by the C10 counterexample: a `voice` object with
no `file_id` next to an `audio` object that has one, plus parseable
text. -/
def m10 : Message :=
  { voice := some ⟨none⟩, audio := some ⟨some "afile"⟩, text := some "5 racao inter"
    chat_id := some 7, message_id := some 3 }

/-- A voice message with a resolvable file id and a text field, used to
instantiate the C10 dispatch theorem. -/
def m10w : Message :=
  { voice := some ⟨some "vfile"⟩, audio := none, text := some "500 padaria nubank"
    chat_id := some 1, message_id := some 2 }

/-! ## Basic character and list lemmas -/

theorem isDigit_beq_false {c d : Char} (h : c.isDigit = true) (hd : d.isDigit = false) :
    (c == d) = false := by
  cases hb : c == d with
  | false => rfl
  | true => exact absurd ((beq_iff_eq.mp hb) ▸ h) (by simp [hd])

theorem isDigit_not_ws {c : Char} (h : c.isDigit = true) : isPyWs c = false := by
  unfold isPyWs
  rw [isDigit_beq_false h (by decide), isDigit_beq_false h (by decide),
    isDigit_beq_false h (by decide), isDigit_beq_false h (by decide),
    isDigit_beq_false h (by decide), isDigit_beq_false h (by decide)]
  rfl

theorem takeWhile_of_all {p : Char → Bool} {l : List Char} (h : ∀ x ∈ l, p x = true) :
    l.takeWhile p = l := by
  induction l with
  | nil => rfl
  | cons c cs ih =>
    have hc := h c (by simp)
    have ht := ih fun x hx => h x (by simp [hx])
    simp [List.takeWhile_cons, hc, ht]

theorem dropWhile_of_all {p : Char → Bool} {l : List Char} (h : ∀ x ∈ l, p x = true) :
    l.dropWhile p = [] := by
  induction l with
  | nil => rfl
  | cons c cs ih =>
    have hc := h c (by simp)
    have ht := ih fun x hx => h x (by simp [hx])
    simp [List.dropWhile_cons, hc, ht]

theorem takeWhile_append_stop {p : Char → Bool} {l2 : List Char} {a : Char} (ha : p a = false) :
    ∀ {l1 : List Char}, (∀ x ∈ l1, p x = true) → (l1 ++ a :: l2).takeWhile p = l1 := by
  intro l1
  induction l1 with
  | nil => intro _; simp [List.takeWhile_cons, ha]
  | cons c cs ih =>
    intro h
    have hc := h c (by simp)
    have ht := ih fun x hx => h x (by simp [hx])
    simp [List.takeWhile_cons, hc, ht]

theorem dropWhile_append_stop {p : Char → Bool} {l2 : List Char} {a : Char} (ha : p a = false) :
    ∀ {l1 : List Char}, (∀ x ∈ l1, p x = true) → (l1 ++ a :: l2).dropWhile p = a :: l2 := by
  intro l1
  induction l1 with
  | nil => intro _; simp [List.dropWhile_cons, ha]
  | cons c cs ih =>
    intro h
    have hc := h c (by simp)
    have ht := ih fun x hx => h x (by simp [hx])
    simp [List.dropWhile_cons, hc, ht]

theorem mem_takeWhile_sat {p : Char → Bool} :
    ∀ {l : List Char} {x : Char}, x ∈ l.takeWhile p → p x = true := by
  intro l
  induction l with
  | nil => intro x hx; simp at hx
  | cons c cs ih =>
    intro x hx
    rw [List.takeWhile_cons] at hx
    by_cases hc : p c = true
    · rw [if_pos hc] at hx
      rcases List.mem_cons.mp hx with h1 | h2
      · exact h1 ▸ hc
      · exact ih h2
    · rw [if_neg hc] at hx
      simp at hx

theorem ne_dot_of_digit {c : Char} (h : c.isDigit = true) : ¬ c = '.' := fun he => by
  subst he; exact absurd h (by decide)

theorem ne_comma_of_digit {c : Char} (h : c.isDigit = true) : ¬ c = ',' := fun he => by
  subst he; exact absurd h (by decide)

/-! ## The matched number substring always converts to a value -/

theorem cleanNumber_digits {l : List Char} (h : ∀ x ∈ l, x.isDigit = true) :
    cleanNumber l = l := by
  unfold cleanNumber
  rw [List.filter_eq_self.mpr fun a ha => by simp [ne_dot_of_digit (h a ha)]]
  have hm : ∀ a ∈ l, (if a == ',' then '.' else a) = id a := fun a ha => by
    simp [ne_comma_of_digit (h a ha)]
  rw [List.map_congr_left hm, List.map_id]

/-- `float` succeeds on a non-empty all-digit string. -/
theorem floatOfClean_digits {l : List Char} (hne : l ≠ []) (h : ∀ x ∈ l, x.isDigit = true) :
    floatOfClean l = some (mkRat (digitsVal l) 1) := by
  have hnd : ∀ x ∈ l, (!(x == '.')) = true := fun x hx => by
    simp [ne_dot_of_digit (h x hx)]
  unfold floatOfClean
  rw [takeWhile_of_all hnd, dropWhile_of_all hnd]
  simp [hne]
  exact h

/-- `float` succeeds on `ip ++ "." ++ fp` with both sides digits, `ip`
non-empty. -/
theorem floatOfClean_dot {ip fp : List Char} (hne : ip ≠ [])
    (hip : ∀ x ∈ ip, x.isDigit = true) (hfp : ∀ x ∈ fp, x.isDigit = true) :
    floatOfClean (ip ++ '.' :: fp) =
      some (mkRat (digitsVal ip * 10 ^ fp.length + digitsVal fp) (10 ^ fp.length)) := by
  have hnd : ∀ x ∈ ip, (!(x == '.')) = true := fun x hx => by
    simp [ne_dot_of_digit (hip x hx)]
  have hdot : ((('.' : Char) == '.') : Bool) = true := by decide
  unfold floatOfClean
  rw [takeWhile_append_stop (by simp) hnd, dropWhile_append_stop (by simp) hnd]
  have hfd : ∀ x ∈ fp, ¬ x = '.' := fun x hx => ne_dot_of_digit (hfp x hx)
  simp [hne, hfd]
  exact ⟨hip, hfp, fun hx => hfd '.' hx rfl⟩

theorem cleanNumber_append (a b : List Char) :
    cleanNumber (a ++ b) = cleanNumber a ++ cleanNumber b := by
  unfold cleanNumber
  rw [List.filter_append, List.map_append]

theorem cleanNumber_cons_dot (l : List Char) : cleanNumber ('.' :: l) = cleanNumber l := by
  unfold cleanNumber
  simp

theorem cleanNumber_cons_comma (l : List Char) :
    cleanNumber (',' :: l) = '.' :: cleanNumber l := by
  unfold cleanNumber
  simp

/-- The number read off `ds ++ sep :: ext`, for digit runs `ds`/`ext`
and a `.` or `,` separator, always exists. -/
theorem numberValue_sep {ds ext : List Char} (hdsne : ds ≠ [])
    (hds : ∀ x ∈ ds, x.isDigit = true) (hext : ∀ x ∈ ext, x.isDigit = true)
    {sep : Char} (hsep : sep = '.' ∨ sep = ',') :
    ∃ v : ℚ, numberValue (ds ++ sep :: ext) = some v := by
  unfold numberValue
  rw [cleanNumber_append]
  rcases hsep with h | h <;> subst h
  · rw [cleanNumber_cons_dot, cleanNumber_digits hds, cleanNumber_digits hext]
    refine ⟨_, floatOfClean_digits ?_ ?_⟩
    · simp [hdsne]
    · intro x hx
      rcases List.mem_append.mp hx with h1 | h2
      · exact hds x h1
      · exact hext x h2
  · rw [cleanNumber_cons_comma, cleanNumber_digits hds, cleanNumber_digits hext]
    exact ⟨_, floatOfClean_dot hdsne hds hext⟩

/-- The substring matched at a digit always converts to a value:
the `float` call of line 64 can never raise for a regex match. -/
theorem matchNumAt_value {c : Char} (cs : List Char) (hc : c.isDigit = true) :
    ∃ v : ℚ, numberValue (matchNumAt (c :: cs)) = some v := by
  have hds : ∀ x ∈ (c :: cs).takeWhile Char.isDigit, x.isDigit = true :=
    fun _ hx => mem_takeWhile_sat hx
  have hdsne : (c :: cs).takeWhile Char.isDigit ≠ [] := by
    simp [List.takeWhile_cons, hc]
  have hnum : ∃ v : ℚ, numberValue ((c :: cs).takeWhile Char.isDigit) = some v := by
    unfold numberValue
    rw [cleanNumber_digits hds]
    exact ⟨_, floatOfClean_digits hdsne hds⟩
  unfold matchNumAt
  cases hdw : (c :: cs).dropWhile Char.isDigit with
  | nil => exact hnum
  | cons sep rest =>
    dsimp only
    by_cases hsep : (sep == '.' || sep == ',') = true
    · rw [if_pos hsep]
      have hsep' : sep = '.' ∨ sep = ',' := by
        rcases Bool.or_eq_true_iff.mp hsep with h | h
        · exact Or.inl (beq_iff_eq.mp h)
        · exact Or.inr (beq_iff_eq.mp h)
      cases rest with
      | nil => exact hnum
      | cons d1 rest' =>
        cases rest' with
        | nil =>
          dsimp only
          by_cases hd1 : d1.isDigit = true
          · rw [if_pos hd1]
            exact numberValue_sep hdsne hds (by simp [hd1]) hsep'
          · rw [if_neg hd1]
            exact hnum
        | cons d2 tail =>
          dsimp only
          by_cases hd1 : d1.isDigit = true
          · rw [if_pos hd1]
            by_cases hd2 : d2.isDigit = true
            · rw [if_pos hd2]
              refine numberValue_sep hdsne hds ?_ hsep'
              intro x hx
              simp only [List.mem_cons, List.not_mem_nil, or_false] at hx
              rcases hx with h | h
              · exact h ▸ hd1
              · exact h ▸ hd2
            · rw [if_neg hd2]
              exact numberValue_sep hdsne hds (by simp [hd1]) hsep'
          · rw [if_neg hd1]
            exact hnum
    · rw [if_neg hsep]
      exact hnum

/-- Any successful regex search yields a group whose conversion
succeeds. -/
theorem findNumberGo_value : ∀ {l : List Char} {pos start : Nat} {g : List Char},
    findNumberGo pos l = some (start, g) → ∃ v : ℚ, numberValue g = some v := by
  intro l
  induction l with
  | nil => intro pos s g h; simp [findNumberGo] at h
  | cons c cs ih =>
    intro pos s g h
    unfold findNumberGo at h
    by_cases hc : c.isDigit = true
    · rw [if_pos hc] at h
      have hg : matchNumAt (c :: cs) = g := by
        have := Option.some.inj h
        exact congrArg Prod.snd this
      exact hg ▸ matchNumAt_value cs hc
    · rw [if_neg hc] at h
      exact ih h

/-- The search fails exactly when the text has no digit at all
(the pattern of line 58 starts with `\d`, so a match exists iff a
digit exists). -/
theorem findNumberGo_none_iff : ∀ {l : List Char} {pos : Nat},
    findNumberGo pos l = none ↔ ∀ c ∈ l, c.isDigit = false := by
  intro l
  induction l with
  | nil => intro pos; simp [findNumberGo]
  | cons c cs ih =>
    intro pos
    unfold findNumberGo
    by_cases hc : c.isDigit = true
    · simp [hc]
    · have hc' : c.isDigit = false := by simpa using hc
      simp [hc', ih]

/-! ## parseCore success and failure shapes -/

theorem parseCore_eq_none_iff {t : List Char} :
    parseCore t = none ↔ findNumberGo 0 t = none := by
  constructor
  · intro h
    cases hf : findNumberGo 0 t with
    | none => rfl
    | some sg =>
      obtain ⟨start, g⟩ := sg
      obtain ⟨v, hv⟩ := findNumberGo_value hf
      unfold parseCore at h
      rw [hf] at h
      dsimp only at h
      rw [hv] at h
      dsimp only at h
      split_ifs at h
  · intro h
    unfold parseCore
    rw [h]

theorem parseCore_two {t : List Char} {start : Nat} {g : List Char} {v : ℚ}
    (hf : findNumberGo 0 t = some (start, g)) (hv : numberValue g = some v)
    (hp : 2 ≤ (partsOf t start g).length) :
    parseCore t = some (v, joinedDesc (partsOf t start g), lastAccount (partsOf t start g)) := by
  unfold parseCore
  rw [hf]
  dsimp only
  rw [hv]
  dsimp only
  rw [if_pos hp]

theorem parseCore_one {t : List Char} {start : Nat} {g p : List Char} {v : ℚ}
    (hf : findNumberGo 0 t = some (start, g)) (hv : numberValue g = some v)
    (hp : partsOf t start g = [p]) :
    parseCore t = some (v, String.mk p, "") := by
  unfold parseCore
  rw [hf]
  dsimp only
  rw [hv]
  dsimp only
  rw [hp]
  norm_num

theorem parseCore_zero {t : List Char} {start : Nat} {g : List Char} {v : ℚ}
    (hf : findNumberGo 0 t = some (start, g)) (hv : numberValue g = some v)
    (hp : partsOf t start g = []) :
    parseCore t = some (v, "", "") := by
  unfold parseCore
  rw [hf]
  dsimp only
  rw [hv]
  dsimp only
  rw [hp]
  norm_num

theorem parseCore_some_shape {t : List Char} {start : Nat} {g : List Char} {v : ℚ}
    (hf : findNumberGo 0 t = some (start, g)) (hv : numberValue g = some v) :
    ∃ d c, parseCore t = some (v, d, c) := by
  unfold parseCore
  rw [hf]
  dsimp only
  rw [hv]
  dsimp only
  split_ifs <;> exact ⟨_, _, rfl⟩

theorem parseCore_value {t : List Char} {v : ℚ} {d c : String}
    (h : parseCore t = some (v, d, c)) :
    ∃ start g, findNumberGo 0 t = some (start, g) ∧ numberValue g = some v := by
  cases hf : findNumberGo 0 t with
  | none =>
    unfold parseCore at h
    rw [hf] at h
    simp at h
  | some sg =>
    obtain ⟨start, g⟩ := sg
    unfold parseCore at h
    rw [hf] at h
    dsimp only at h
    cases hv : numberValue g with
    | none => rw [hv] at h; simp at h
    | some w =>
      rw [hv] at h
      refine ⟨start, g, rfl, ?_⟩
      dsimp only at h
      split_ifs at h <;>
        · rw [Option.some.injEq, Prod.mk.injEq] at h
          rw [hv, h.1]

/-! ## The inner strip of line 54 is immaterial: `normalizeInput = normalizeSpec`

The marker patterns `"r$"` and `"reais"` contain no whitespace, so no
occurrence can span the boundary between the text and its surrounding
whitespace; stripping before removal therefore commutes with removal. -/

theorem isPrefixOf_length_le {p l : List Char} (h : p.isPrefixOf l = true) :
    p.length ≤ l.length := by
  induction p generalizing l with
  | nil => simp
  | cons a as ih =>
    cases l with
    | nil => simp [List.isPrefixOf] at h
    | cons b bs =>
      simp only [List.isPrefixOf, Bool.and_eq_true] at h
      simpa using ih h.2

theorem beq_false_of_ws_mismatch {p c : Char} (hp : isPyWs p = false) (hc : isPyWs c = true) :
    (p == c) = false := by
  cases hb : p == c with
  | false => rfl
  | true =>
    have he := beq_iff_eq.mp hb
    subst he
    rw [hc] at hp
    exact absurd hp (by simp)

/-- A pattern of non-whitespace characters is a prefix of `s ++ w`
(`w` all whitespace) iff it is a prefix of `s`: no occurrence can use
a character of `w`. -/
theorem isPrefixOf_append_ws {w : List Char} (hw : ∀ x ∈ w, isPyWs x = true) :
    ∀ {pat : List Char}, (∀ x ∈ pat, isPyWs x = false) →
      ∀ s : List Char, pat.isPrefixOf (s ++ w) = pat.isPrefixOf s := by
  intro pat
  induction pat with
  | nil => intro _ s; simp [List.isPrefixOf]
  | cons p ps ih =>
    intro hpat s
    cases s with
    | nil =>
      simp only [List.nil_append]
      cases w with
      | nil => rfl
      | cons c ws =>
        have hb := beq_false_of_ws_mismatch (hpat p (by simp)) (hw c (by simp))
        simp [List.isPrefixOf, hb]
    | cons c cs =>
      simp only [List.cons_append, List.isPrefixOf, List.append_eq]
      rw [ih (fun x hx => hpat x (by simp [hx])) cs]

/-- Fuel irrelevance for `removeAllF`: any fuel at least the list
length computes the same result (for a non-empty pattern). -/
theorem removeAllF_fuel {pat : List Char} (hp : pat ≠ []) :
    ∀ (n : Nat) {m : Nat} (l : List Char), l.length ≤ n → l.length ≤ m →
      removeAllF pat n l = removeAllF pat m l := by
  intro n
  induction n with
  | zero =>
    intro m l hn _
    have hl : l = [] := List.eq_nil_of_length_eq_zero (Nat.le_zero.mp hn)
    subst hl
    cases m <;> rfl
  | succ n ih =>
    intro m l hn hm
    cases l with
    | nil => cases m <;> rfl
    | cons c cs =>
      cases m with
      | zero => simp at hm
      | succ m' =>
        have hple : 1 ≤ pat.length := by
          cases pat with
          | nil => exact absurd rfl hp
          | cons a as => simp
        unfold removeAllF
        by_cases hpfx : pat.isPrefixOf (c :: cs) = true
        · rw [if_pos hpfx, if_pos hpfx]
          apply ih
          · simp only [List.length_drop, List.length_cons]
            simp only [List.length_cons] at hn
            omega
          · simp only [List.length_drop, List.length_cons]
            simp only [List.length_cons] at hm
            omega
        · rw [if_neg hpfx, if_neg hpfx]
          refine congrArg (c :: ·) (ih cs ?_ ?_)
          · simp only [List.length_cons] at hn; omega
          · simp only [List.length_cons] at hm; omega

/-- A run of whitespace contains no occurrence of a non-whitespace
pattern, so removal leaves it unchanged (any fuel). -/
theorem removeAllF_ws_all {pat : List Char} (hp : pat ≠ [])
    (hpat : ∀ x ∈ pat, isPyWs x = false) :
    ∀ (n : Nat) {w : List Char}, (∀ x ∈ w, isPyWs x = true) → removeAllF pat n w = w := by
  intro n
  induction n with
  | zero => intro w _; cases w <;> rfl
  | succ n ih =>
    intro w hw
    cases w with
    | nil => rfl
    | cons c cs =>
      obtain ⟨p, ps, hpe⟩ : ∃ p ps, pat = p :: ps := by
        cases pat with
        | nil => exact absurd rfl hp
        | cons a as => exact ⟨_, _, rfl⟩
      have hpfx : pat.isPrefixOf (c :: cs) = false := by
        subst hpe
        have hb := beq_false_of_ws_mismatch (hpat p (by simp)) (hw c (by simp))
        simp [List.isPrefixOf, hb]
      unfold removeAllF
      rw [if_neg (by simp [hpfx])]
      exact congrArg (c :: ·) (ih fun x hx => hw x (by simp [hx]))

/-- Removal commutes past a leading whitespace run. -/
theorem removeAll_ws_append_left {pat : List Char} (hp : pat ≠ [])
    (hpat : ∀ x ∈ pat, isPyWs x = false) (y : List Char) :
    ∀ {w : List Char}, (∀ x ∈ w, isPyWs x = true) →
      removeAll pat (w ++ y) = w ++ removeAll pat (y : List Char) := by
  intro w
  induction w with
  | nil => intro _; simp
  | cons c cs ih =>
    intro hw
    obtain ⟨p, ps, hpe⟩ : ∃ p ps, pat = p :: ps := by
      cases pat with
      | nil => exact absurd rfl hp
      | cons a as => exact ⟨_, _, rfl⟩
    have hpfx : pat.isPrefixOf (c :: (cs ++ y)) = false := by
      subst hpe
      have hb := beq_false_of_ws_mismatch (hpat p (by simp)) (hw c (by simp))
      simp [List.isPrefixOf, hb]
    have step : removeAll pat ((c :: cs) ++ y) = c :: removeAll pat (cs ++ y) := by
      show removeAllF pat ((c :: cs) ++ y).length ((c :: cs) ++ y) = _
      simp only [List.cons_append, List.length_cons]
      unfold removeAllF
      rw [if_neg (by simp [hpfx])]
      rfl
    rw [step, ih fun x hx => hw x (by simp [hx])]
    rfl

/-- Removal commutes past a trailing whitespace run (fuel level). -/
theorem removeAllF_ws_append_right {pat : List Char} (hp : pat ≠ [])
    (hpat : ∀ x ∈ pat, isPyWs x = false) {w : List Char} (hw : ∀ x ∈ w, isPyWs x = true) :
    ∀ (n : Nat) (y : List Char), (y ++ w).length ≤ n →
      removeAllF pat n (y ++ w) = removeAllF pat n y ++ w := by
  intro n
  induction n with
  | zero =>
    intro y hl
    rw [List.length_append] at hl
    have hy : y = [] := List.eq_nil_of_length_eq_zero (by omega)
    have hw0 : w = [] := List.eq_nil_of_length_eq_zero (by omega)
    subst hy; subst hw0
    rfl
  | succ n ih =>
    intro y hl
    cases y with
    | nil =>
      simp only [List.nil_append]
      rw [removeAllF_ws_all hp hpat _ hw]
      rfl
    | cons c cs =>
      have hpfxeq : pat.isPrefixOf (c :: (cs ++ w)) = pat.isPrefixOf (c :: cs) := by
        have := isPrefixOf_append_ws hw hpat (c :: cs)
        simpa using this
      have hple : 1 ≤ pat.length := by
        cases pat with
        | nil => exact absurd rfl hp
        | cons a as => simp
      simp only [List.cons_append]
      unfold removeAllF
      by_cases hpfx : pat.isPrefixOf (c :: cs) = true
      · rw [if_pos (hpfxeq.trans hpfx), if_pos hpfx]
        have hlen : pat.length ≤ (c :: cs).length := isPrefixOf_length_le hpfx
        have hdrop0 : List.drop pat.length ((c :: cs) ++ w)
            = List.drop pat.length (c :: cs) ++ w := List.drop_append_of_le_length hlen
        have hdrop : List.drop pat.length (c :: (cs ++ w))
            = List.drop pat.length (c :: cs) ++ w := by
          simpa using hdrop0
        rw [hdrop]
        apply ih
        have h1 := List.length_drop pat.length (c :: cs)
        simp only [List.length_append, List.length_cons] at hl ⊢
        simp only [List.length_drop, List.length_cons]
        omega
      · rw [if_neg (by rw [hpfxeq]; exact hpfx), if_neg hpfx]
        have hstep := ih cs (by simp only [List.length_append, List.length_cons] at hl ⊢; omega)
        rw [hstep]
        rfl

/-- Removal commutes past a trailing whitespace run. -/
theorem removeAll_ws_append_right {pat : List Char} (hp : pat ≠ [])
    (hpat : ∀ x ∈ pat, isPyWs x = false) {w : List Char} (hw : ∀ x ∈ w, isPyWs x = true)
    (y : List Char) : removeAll pat (y ++ w) = removeAll pat y ++ w := by
  unfold removeAll
  rw [removeAllF_ws_append_right hp hpat hw _ y (Nat.le_refl _)]
  rw [@removeAllF_fuel _ hp (y ++ w).length y.length y (by simp) (Nat.le_refl _)]

theorem dropWhile_ws_append {w : List Char} (hw : ∀ x ∈ w, isPyWs x = true) :
    ∀ (y : List Char), (w ++ y).dropWhile isPyWs = y.dropWhile isPyWs := by
  induction w with
  | nil => intro y; rfl
  | cons c cs ih =>
    intro y
    have hc := hw c (by simp)
    simp only [List.cons_append, List.dropWhile_cons, hc, if_true]
    exact ih (fun x hx => hw x (by simp [hx])) y

theorem dropWhile_append_of_ne_nil {p : Char → Bool} :
    ∀ {y : List Char}, y.dropWhile p ≠ [] →
      ∀ w, (y ++ w).dropWhile p = y.dropWhile p ++ w := by
  intro y
  induction y with
  | nil => intro h; simp at h
  | cons c cs ih =>
    intro h w
    by_cases hc : p c = true
    · rw [List.dropWhile_cons, if_pos hc] at h
      simp only [List.cons_append, List.dropWhile_cons, hc, if_true]
      exact ih h w
    · have hc' : p c = false := by simpa using hc
      simp [List.dropWhile_cons, hc']

theorem dropWhile_eq_nil_all {p : Char → Bool} :
    ∀ {l : List Char}, l.dropWhile p = [] → ∀ x ∈ l, p x = true := by
  intro l
  induction l with
  | nil => intro _ x hx; simp at hx
  | cons c cs ih =>
    intro h x hx
    rw [List.dropWhile_cons] at h
    by_cases hc : p c = true
    · rw [if_pos hc] at h
      rcases List.mem_cons.mp hx with h1 | h2
      · exact h1 ▸ hc
      · exact ih h x h2
    · rw [if_neg hc] at h
      simp at h

theorem pyStrip_ws_left {w : List Char} (hw : ∀ x ∈ w, isPyWs x = true) (y : List Char) :
    pyStrip (w ++ y) = pyStrip y := by
  unfold pyStrip
  rw [dropWhile_ws_append hw]

theorem pyStrip_ws_right {w : List Char} (hw : ∀ x ∈ w, isPyWs x = true) (y : List Char) :
    pyStrip (y ++ w) = pyStrip y := by
  by_cases hnil : y.dropWhile isPyWs = []
  · have hall : ∀ x ∈ y, isPyWs x = true := dropWhile_eq_nil_all hnil
    have h1 : (y ++ w).dropWhile isPyWs = [] := by
      apply dropWhile_of_all
      intro x hx
      rcases List.mem_append.mp hx with h | h
      · exact hall x h
      · exact hw x h
    unfold pyStrip
    rw [h1, hnil]
  · unfold pyStrip
    rw [dropWhile_append_of_ne_nil hnil w, List.reverse_append]
    rw [dropWhile_ws_append (fun x hx => hw x (List.mem_reverse.mp hx))]

/-- The source's normalization (lower, strip, remove markers, strip)
coincides with the specification's reading (lower, remove markers,
trim). -/
theorem normalizeInput_eq_spec (l : List Char) : normalizeInput l = normalizeSpec l := by
  unfold normalizeInput normalizeSpec
  have hrp : rsPat ≠ [] := by decide
  have hre : reaisPat ≠ [] := by decide
  have hrpw : ∀ x ∈ rsPat, isPyWs x = false := by decide
  have hrew : ∀ x ∈ reaisPat, isPyWs x = false := by decide
  set L := l.map Char.toLower with hL
  set r := L.dropWhile isPyWs with hr
  set w1 := L.takeWhile isPyWs with hw1
  set core := (r.reverse.dropWhile isPyWs).reverse with hcore
  set w2 := (r.reverse.takeWhile isPyWs).reverse with hw2
  have hLdec : L = w1 ++ r := (List.takeWhile_append_dropWhile isPyWs L).symm
  have hrdec : r = core ++ w2 := by
    rw [hcore, hw2, ← List.reverse_append, List.takeWhile_append_dropWhile,
      List.reverse_reverse]
  have hpyL : pyStrip L = core := by
    unfold pyStrip
    rw [← hr, ← hcore]
  have hw1ws : ∀ x ∈ w1, isPyWs x = true := fun x hx => mem_takeWhile_sat (hw1 ▸ hx)
  have hw2ws : ∀ x ∈ w2, isPyWs x = true := fun x hx =>
    mem_takeWhile_sat (List.mem_reverse.mp (hw2 ▸ hx))
  rw [hpyL]
  conv_rhs => rw [hLdec, hrdec]
  rw [removeAll_ws_append_left hrp hrpw (core ++ w2) hw1ws,
    removeAll_ws_append_right hrp hrpw hw2ws core,
    removeAll_ws_append_left hre hrew (removeAll rsPat core ++ w2) hw1ws,
    removeAll_ws_append_right hre hrew hw2ws (removeAll rsPat core),
    pyStrip_ws_left hw1ws, pyStrip_ws_right hw2ws]

/-! ## Substring facts -/

theorem containsSub_nil (s : List Char) : containsSub s [] = true := by
  cases s with
  | nil => rfl
  | cons c cs => simp [containsSub, List.isPrefixOf]

theorem isPrefixOf_self_append (p b : List Char) : p.isPrefixOf (p ++ b) = true := by
  induction p with
  | nil => simp [List.isPrefixOf]
  | cons a as ih => simp [List.isPrefixOf, ih]

theorem containsSub_front (p b : List Char) : containsSub (p ++ b) p = true := by
  cases p with
  | nil => exact containsSub_nil b
  | cons a as =>
    have h := isPrefixOf_self_append (a :: as) b
    simp only [List.cons_append] at h ⊢
    simp [containsSub, h]

theorem containsSub_append_right {pat : List Char} {b : List Char}
    (h : containsSub b pat = true) : ∀ a : List Char, containsSub (a ++ b) pat = true := by
  intro a
  induction a with
  | nil => simpa using h
  | cons c cs ih => simp [containsSub, ih]

theorem containsSub_middle (a p b : List Char) : containsSub (a ++ (p ++ b)) p = true :=
  containsSub_append_right (containsSub_front p b) a

/-! ## Every branch acknowledges -/

theorem textBranch_ack (env : Env) (chat : Option Int) (msg : Option Nat)
    (mt : Option String) : (textBranch env chat msg mt).ack = true := by
  unfold textBranch
  dsimp only
  split
  · rfl
  · split <;> rfl

theorem audioBranch_ack (env : Env) (chat : Option Int) (msg : Option Nat)
    (fid : String) : (audioBranch env chat msg fid).ack = true := by
  unfold audioBranch
  dsimp only
  split
  · rfl
  · split
    · rfl
    · split <;> rfl

theorem handleMessage_ack (env : Env) (m : Message) : (handleMessage env m).ack = true := by
  unfold handleMessage
  split
  · exact textBranch_ack ..
  · split
    · exact textBranch_ack ..
    · exact audioBranch_ack ..

theorem containsSubS_middle (a p b : String) : containsSubS (a ++ p ++ b) p = true := by
  unfold containsSubS
  have hl : (a ++ p ++ b).toList = a.toList ++ (p.toList ++ b.toList) := by
    show (a ++ p ++ b).data = a.data ++ (p.data ++ b.data)
    rw [String.data_append, String.data_append, List.append_assoc]
  rw [hl]
  exact containsSub_middle a.toList p.toList b.toList

/-! ## The claims -/

/-- C1: for every input whose normalized text contains a match of the
decimal-number pattern (the conversion of a match never fails, first
conjunct), if the remainder after deleting the match splits into at
least two whitespace tokens then `parse_expense` succeeds with the
value read off that first match, the last token as account and the
other tokens joined by single spaces as description; in particular
`parse_expense "500 padaria nubank" = (500.00, "padaria", "nubank")`
and `parse_expense "32,90 mercado inter" = (32.90, "mercado", "inter")`. -/
theorem claim_C1 :
    (∀ (pos : Nat) (l : List Char) (start : Nat) (g : List Char),
        findNumberGo pos l = some (start, g) → ∃ v : ℚ, numberValue g = some v)
    ∧ (∀ (text : String) (start : Nat) (g : List Char) (v : ℚ),
        findNumberGo 0 (normalizeInput text.toList) = some (start, g) →
        numberValue g = some v →
        2 ≤ (partsOf (normalizeInput text.toList) start g).length →
        parse_expense text = some (v,
          joinedDesc (partsOf (normalizeInput text.toList) start g),
          lastAccount (partsOf (normalizeInput text.toList) start g)))
    ∧ parse_expense "500 padaria nubank" = some (500, "padaria", "nubank")
    ∧ parse_expense "32,90 mercado inter" = some (mkRat 329 10, "mercado", "inter") := by
  refine ⟨?_, ?_, by decide, by decide⟩
  · intro pos l start g h
    exact findNumberGo_value h
  · intro text start g v hf hv hp
    unfold parse_expense
    exact parseCore_two hf hv hp

theorem claim_C1_witness :
    parse_expense "500 padaria nubank" = some (500, "padaria", "nubank") :=
  (claim_C1.2.1 "500 padaria nubank" 0 ['5', '0', '0'] 500 (by decide) (by decide)
    (by decide)).trans (by decide)

/-- C2: the matched substring is converted by first deleting every `.`
and then replacing `,` by `.` before being read as a number (first
conjunct relates every successful parse's value to exactly that
conversion of the matched group); consequently an input whose first
match is the US-style `"32.90"` parses to the value 3290, not 32.90. -/
theorem claim_C2 :
    (∀ (text : String) (v : ℚ) (d c : String),
        parse_expense text = some (v, d, c) →
        ∃ start g, findNumberGo 0 (normalizeInput text.toList) = some (start, g) ∧
          floatOfClean ((g.filter (fun ch => !(ch == '.'))).map
            (fun ch => if ch == ',' then '.' else ch)) = some v)
    ∧ (∀ (text : String) (start : Nat),
        findNumberGo 0 (normalizeInput text.toList) = some (start, ['3', '2', '.', '9', '0']) →
        ∃ d c, parse_expense text = some (3290, d, c))
    ∧ parse_expense "32.90 mercado inter" = some (3290, "mercado", "inter") := by
  refine ⟨?_, ?_, by decide⟩
  · intro text v d c h
    unfold parse_expense at h
    obtain ⟨start, g, hf, hv⟩ := parseCore_value h
    exact ⟨start, g, hf, hv⟩
  · intro text start hf
    have hv : numberValue ['3', '2', '.', '9', '0'] = some 3290 := by decide
    unfold parse_expense
    exact parseCore_some_shape hf hv

theorem claim_C2_witness :
    ∃ d c, parse_expense "32.90 mercado inter" = some (3290, d, c) :=
  claim_C2.2.1 "32.90 mercado inter" 0 (by decide)

/-- C4: every inbound update — no message, text, voice/audio or
unrecognized, whatever the parse or transcription outcome and whatever
the environment — makes the webhook return the acknowledgment
`{"ok": true}`; no handled branch returns an error. -/
theorem claim_C4 : ∀ (env : Env) (u : Update), (webhook env u).ack = true := by
  intro env u
  unfold webhook
  split
  · exact handleMessage_ack ..
  · split
    · exact handleMessage_ack ..
    · rfl

theorem claim_C4_witness : (webhook env0 { message := none, edited_message := none }).ack = true :=
  claim_C4 env0 { message := none, edited_message := none }

/-- C5: after deleting the matched number and collapsing whitespace,
the split of the remainder drives the result: zero tokens give empty
description and account, one token becomes the description with empty
account, two or more tokens give the last token as account and the
rest joined by single spaces as description; in particular
`parse_expense "42"` has empty description and account. -/
theorem claim_C5 :
    (∀ (text : String) (start : Nat) (g : List Char) (v : ℚ),
        findNumberGo 0 (normalizeInput text.toList) = some (start, g) →
        numberValue g = some v →
        (partsOf (normalizeInput text.toList) start g = [] →
          parse_expense text = some (v, "", "")) ∧
        (∀ p, partsOf (normalizeInput text.toList) start g = [p] →
          parse_expense text = some (v, String.mk p, "")) ∧
        (2 ≤ (partsOf (normalizeInput text.toList) start g).length →
          parse_expense text = some (v,
            joinedDesc (partsOf (normalizeInput text.toList) start g),
            lastAccount (partsOf (normalizeInput text.toList) start g))))
    ∧ parse_expense "42" = some (42, "", "") := by
  refine ⟨?_, by decide⟩
  intro text start g v hf hv
  refine ⟨?_, ?_, ?_⟩
  · intro hp
    unfold parse_expense
    exact parseCore_zero hf hv hp
  · intro p hp
    unfold parse_expense
    exact parseCore_one hf hv hp
  · intro hp
    unfold parse_expense
    exact parseCore_two hf hv hp

theorem claim_C5_witness : parse_expense "42" = some (42, "", "") :=
  (claim_C5.1 "42" 0 ['4', '2'] 42 (by decide) (by decide)).1 (by decide)

/-- C6: `parse_expense` fails exactly when the normalized input has no
substring matching the decimal-number pattern — equivalently, no digit
character at all (the `float` conversion never fails on a match, so
the regex is the only failure source); in particular
`parse_expense "no numbers here"` fails. -/
theorem claim_C6 :
    (∀ text : String,
        parse_expense text = none ↔
          (normalizeInput text.toList).all (fun c => !c.isDigit) = true)
    ∧ parse_expense "no numbers here" = none := by
  refine ⟨?_, by decide⟩
  intro text
  unfold parse_expense
  rw [parseCore_eq_none_iff, findNumberGo_none_iff]
  simp

theorem claim_C6_witness :
    (normalizeInput ("sem valor algum").toList).all (fun c => !c.isDigit) = true ∧
      parse_expense "sem valor algum" = none :=
  ⟨by decide, (claim_C6.1 "sem valor algum").mpr (by decide)⟩

/-- C7: every successfully parsed expense appends exactly one row whose
columns are, in order, the capture timestamp formatted
`"YYYY-MM-DD HH:MM:SS UTC"` (the environment's UTC clock), the value
with two decimal places, the description, the account, and the text
that was parsed — in both the text branch and the voice branch. -/
theorem claim_C7 :
    (∀ (env : Env) (chat : Option Int) (msgid : Option Nat) (mtext : Option String)
        (v : ℚ) (d c : String),
        parse_expense (String.mk (pyStrip (mtext.getD "").toList)) = some (v, d, c) →
        (textBranch env chat msgid mtext).appends =
          [[fmtTimestamp env.now, format2 v, d, c,
            String.mk (pyStrip (mtext.getD "").toList)]])
    ∧ (∀ (env : Env) (chat : Option Int) (msgid : Option Nat) (fid : String)
        (v : ℚ) (d c : String),
        (env.getFile fid).ok = true →
        parse_expense (transcribe_ogg_to_text env.modelText) = some (v, d, c) →
        (audioBranch env chat msgid fid).appends =
          [[fmtTimestamp env.now, format2 v, d, c, transcribe_ogg_to_text env.modelText]]) := by
  constructor
  · intro env chat msgid mtext v d c h
    unfold textBranch
    dsimp only
    by_cases ht : String.mk (pyStrip (mtext.getD "").toList) = ""
    · rw [ht] at h
      have h0 : parse_expense "" = none := by decide
      rw [h0] at h
      exact absurd h (by simp)
    · rw [if_neg ht, h]
      rfl
  · intro env chat msgid fid v d c hok h
    unfold audioBranch
    dsimp only
    rw [if_neg (by simp [hok])]
    by_cases ht : transcribe_ogg_to_text env.modelText = ""
    · rw [ht] at h
      have h0 : parse_expense "" = none := by decide
      rw [h0] at h
      exact absurd h (by simp)
    · rw [if_neg ht, h]
      rfl

theorem claim_C7_witness :
    (textBranch env0 (some 1) (some 2) (some "500 padaria nubank")).appends =
      [["2026-10-12 00:00:00 UTC", "500.00", "padaria", "nubank", "500 padaria nubank"]] :=
  (claim_C7.1 env0 (some 1) (some 2) (some "500 padaria nubank") 500 "padaria" "nubank"
    (by decide)).trans (by decide)

/-- C8: normalization lower-cases, removes every occurrence of `"r$"`
and `"reais"`, and trims whitespace before the number search: parsing
factors exactly through `normalizeSpec`, the normalization as the
specification words it (the source's extra strip before the marker
removal makes no difference); in particular
`parse_expense "r$ 18 uber pix" = (18.00, "uber", "pix")`. -/
theorem claim_C8 :
    (∀ text : String, parse_expense text = parseCore (normalizeSpec text.toList))
    ∧ parse_expense "r$ 18 uber pix" = some (18, "uber", "pix") := by
  refine ⟨?_, by decide⟩
  intro text
  unfold parse_expense
  rw [normalizeInput_eq_spec]

theorem claim_C8_witness :
    parse_expense "r$ 25 mercado pix" = parseCore (normalizeSpec ("r$ 25 mercado pix").toList) :=
  claim_C8.1 "r$ 25 mercado pix"

/-- C9: `parse_expense` is a pure function of its input text — two
calls on equal strings give identical results. -/
theorem claim_C9 : ∀ s t : String, s = t → parse_expense s = parse_expense t := by
  intro s t h
  rw [h]

theorem claim_C9_witness :
    parse_expense "32,90 mercado inter" = parse_expense "32,90 mercado inter" :=
  claim_C9 "32,90 mercado inter" "32,90 mercado inter" rfl

/-- C3 counterexample: on the plain text update `m3` (text `"xyz"`,
no digits) the parser fails and the handler does send a failure reply
and writes no row — but the reply is the fixed string of line 120,
which does not include the raw input text, contradicting the claim
that the reply includes the raw or transcribed input text. -/
theorem claim_C3_counterexample :
    parse_expense "xyz" = none ∧
    (handleMessage env0 m3).sends = [send_message (some 7) textFailReply (some 3)] ∧
    (handleMessage env0 m3).appends = [] ∧
    containsSubS textFailReply "xyz" = false := by
  exact ⟨by decide, by decide, by decide, by decide⟩

/-- C3 (amended): on a parse failure no ledger row is written and a
reply carrying the usage example `500 padaria nubank` is sent; for a
voice/audio update (a resolved non-empty file id) the reply also
includes the transcribed text, but for a plain text update — a
missing, or by the truthiness of line 114 an empty, resolved file id —
the reply is the fixed string of line 120 and does not include the
raw input text. -/
theorem claim_C3_amended :
    (∀ (env : Env) (m : Message),
        (getFileId m = none ∨ getFileId m = some "") →
        String.mk (pyStrip (m.text.getD "").toList) ≠ "" →
        parse_expense (String.mk (pyStrip (m.text.getD "").toList)) = none →
        handleMessage env m =
          { sends := [send_message m.chat_id textFailReply m.message_id]
            appends := [], ack := true } ∧
        containsSubS textFailReply "500 padaria nubank" = true)
    ∧ (∀ (env : Env) (m : Message) (fid : String),
        getFileId m = some fid →
        fid ≠ "" →
        (env.getFile fid).ok = true →
        transcribe_ogg_to_text env.modelText ≠ "" →
        parse_expense (transcribe_ogg_to_text env.modelText) = none →
        handleMessage env m =
          { sends := [send_message m.chat_id
              (voiceFailReply (transcribe_ogg_to_text env.modelText)) m.message_id]
            appends := [], ack := true } ∧
        containsSubS (voiceFailReply (transcribe_ogg_to_text env.modelText))
          (transcribe_ogg_to_text env.modelText) = true ∧
        containsSubS (voiceFailReply (transcribe_ogg_to_text env.modelText))
          "500 padaria nubank" = true) := by
  constructor
  · intro env m hfid hne hparse
    refine ⟨?_, by decide⟩
    unfold handleMessage
    rcases hfid with h | h
    · rw [h]
      unfold textBranch
      dsimp only
      rw [if_neg hne, hparse]
    · rw [h]
      dsimp only
      rw [if_pos rfl]
      unfold textBranch
      dsimp only
      rw [if_neg hne, hparse]
  · intro env m fid hfid hnefid hok hne hparse
    refine ⟨?_, ?_, ?_⟩
    · unfold handleMessage
      rw [hfid]
      dsimp only
      rw [if_neg hnefid]
      unfold audioBranch
      dsimp only
      rw [if_neg (by simp [hok]), if_neg hne, hparse]
    · have h := containsSubS_middle "Transcrição: `" (transcribe_ogg_to_text env.modelText)
        "`\nNão entendi o formato. Exemplo: `500 padaria nubank`"
      exact h
    · unfold containsSubS voiceFailReply
      show containsSub
        (("Transcrição: `" ++ transcribe_ogg_to_text env.modelText) ++
          "`\nNão entendi o formato. Exemplo: `500 padaria nubank`").data _ = true
      rw [String.data_append]
      exact containsSub_append_right (by decide) _

theorem claim_C3_witness :
    handleMessage env0 m3 =
      { sends := [send_message m3.chat_id textFailReply m3.message_id]
        appends := [], ack := true } ∧
    containsSubS textFailReply "500 padaria nubank" = true :=
  claim_C3_amended.1 env0 m3 (Or.inl (by decide)) (by decide) (by decide)

/-- C10 counterexample: the message `m10` carries an audio attachment
with a file id and non-empty parseable text, yet because a voice
object without `file_id` is present, the `elif "audio"` arm is never
consulted, no file id is resolved, and the handler runs the text
branch: the text is parsed and persisted, and the outcome differs
from the audio pipeline the claim promises. -/
theorem claim_C10_counterexample :
    m10.audio = some ⟨some "afile"⟩ ∧ m10.text = some "5 racao inter" ∧
    (handleMessage env0 m10).appends =
      [["2026-10-12 00:00:00 UTC", "5.00", "racao", "inter", "5 racao inter"]] ∧
    handleMessage env0 m10 ≠ audioBranch env0 m10.chat_id m10.message_id "afile" := by
  exact ⟨rfl, rfl, by decide, by decide⟩

/-- C10 (amended): the file id is resolved from the voice object when
one is present (even if it has no file id, in which case the text
branch runs despite an available audio file id), else from the audio
object; whenever the resolved file id is non-empty the handler runs
the audio pipeline and the text field is never read: the outcome is
identical for every value of the text field.  A missing, or by the
truthiness of line 114 an empty, resolved file id falls through to
the text branch. -/
theorem claim_C10_amended :
    (∀ (env : Env) (m : Message) (fid : String),
        getFileId m = some fid → fid ≠ "" →
        handleMessage env m = audioBranch env m.chat_id m.message_id fid)
    ∧ (∀ (env : Env) (m : Message) (fid : String) (s : Option String),
        getFileId m = some fid → fid ≠ "" →
        handleMessage env m = handleMessage env { m with text := s })
    ∧ (∀ (env : Env) (m : Message),
        (getFileId m = none ∨ getFileId m = some "") →
        handleMessage env m = textBranch env m.chat_id m.message_id m.text) := by
  refine ⟨?_, ?_, ?_⟩
  · intro env m fid h hne
    unfold handleMessage
    rw [h]
    dsimp only
    rw [if_neg hne]
  · intro env m fid s h hne
    have h2 : getFileId { m with text := s } = some fid := h
    unfold handleMessage
    rw [h, h2]
    dsimp only
    rw [if_neg hne, if_neg hne]
  · intro env m h
    unfold handleMessage
    rcases h with h | h
    · rw [h]
    · rw [h]
      dsimp only
      rw [if_pos rfl]

theorem claim_C10_witness :
    handleMessage env0 m10w = audioBranch env0 m10w.chat_id m10w.message_id "vfile" :=
  claim_C10_amended.1 env0 m10w "vfile" (by decide) (by decide)

end GastosBot
